import Mathlib

/-!
Verification development for the agueda_analysis program-analysis toolkit.

The Lean definitions below are shallow embeddings of the Python sources:
  * src/static_analysis/abstractions.py   (Sign domain, AState lattice)
  * src/static_analysis/abstract_interpreter.py  (abstract step, worklist loop)
  * src/symbolic_execution/{path,symstate,findings,executor,solver_z3,jvm_frontend,analysis}.py
  * src/interpreter/interpreter.py        (concrete interpreter)

Python dictionaries are modelled as association lists, Python lists as Lean
lists (stack top at the end, as in the sources, where push appends and pop
takes the last element), Python unbounded ints as Int, and Python runtime
errors (AttributeError, UnboundLocalError, NameError, IndexError) as an
explicit error type threaded through Except.
-/

/-- Runtime errors of the embedded Python code. `fuel` marks exhaustion of the
recursion fuel used to model an unbounded while loop. -/
inductive PyErr : Type
  | attributeError (msg : String)
  | unboundLocalError (msg : String)
  | nameError (msg : String)
  | indexError (msg : String)
  | assertionFailed
  | fuel
deriving DecidableEq, Repr

/-! ## Sign abstract domain (src/static_analysis/abstractions.py, class Sign)

The Python class stores `values : set[str]` with elements drawn from
"+", "-", "0"; we model the three characters as the inductive `SChar` and the
set as a `Finset SChar`. -/

/-- Sign characters: "+" (plus), "-" (minus), "0" (zer). -/
inductive SChar : Type
  | plus
  | minus
  | zer
deriving DecidableEq, Repr

instance : Fintype SChar :=
  ⟨⟨{SChar.plus, SChar.minus, SChar.zer}, by decide⟩, by intro c; cases c <;> decide⟩

/-- Sign.top(): the element containing all three signs. (In the source this is
a tuple ("+", "-", "0"); everywhere it is consumed it behaves as the
three-element collection.) -/
def Sign.top : Finset SChar := {SChar.plus, SChar.minus, SChar.zer}

/-- Sign.bottom(): the empty set of signs. -/
def Sign.bottom : Finset SChar := ∅

/-- Sign.join: set union of the sign sets. -/
def Sign.join (a b : Finset SChar) : Finset SChar := a ∪ b

/-- Sign.abstract(values): the union of the three set comprehensions
including "+" for positive members, "-" for negative members and "0" for
zero members of the input set. -/
def Sign.abstract (X : Finset ℤ) : Finset SChar :=
  ((X.filter fun v => 0 < v).image fun _ => SChar.plus)
    ∪ ((X.filter fun v => v < 0).image fun _ => SChar.minus)
    ∪ ((X.filter fun v => v = 0).image fun _ => SChar.zer)

/-- Sign.__contains__(value): tests ">0 needs +, <0 needs -, =0 needs 0",
in that order. -/
def Sign.containsInt (s : Finset SChar) (v : ℤ) : Bool :=
  if 0 < v then decide (SChar.plus ∈ s)
  else if v < 0 then decide (SChar.minus ∈ s)
  else decide (SChar.zer ∈ s)

/-- Sign.sign_add lookup table. -/
def Sign.sign_add (x y : SChar) : Finset SChar :=
  if x = SChar.zer then {y}
  else if y = SChar.zer then {x}
  else if x = y then {x}
  else {SChar.plus, SChar.minus, SChar.zer}

/-- Sign.sign_div lookup table. Division by the sign "0" yields Sign.top();
there is no distinguished divide-by-zero element in the result type. -/
def Sign.sign_div (x y : SChar) : Finset SChar :=
  if y = SChar.zer then Sign.top
  else if x = SChar.zer then {SChar.zer}
  else if x = y then {SChar.plus}
  else {SChar.minus}

/-- Sign.sign_sub lookup table. -/
def Sign.sign_sub (x y : SChar) : Finset SChar :=
  if y = SChar.zer then {x}
  else if x = SChar.zer then (if y = SChar.plus then {SChar.minus} else {SChar.plus})
  else if x = y then {SChar.plus, SChar.minus, SChar.zer}
  else if x = SChar.plus ∧ y = SChar.minus then {SChar.plus}
  else if x = SChar.minus ∧ y = SChar.plus then {SChar.minus}
  else {SChar.plus, SChar.minus, SChar.zer}

/-- Sign.sign_mul lookup table. -/
def Sign.sign_mul (x y : SChar) : Finset SChar :=
  if x = SChar.zer ∨ y = SChar.zer then {SChar.zer}
  else if x = y then {SChar.plus}
  else {SChar.minus}

/-- Sign.binary_op(a, b, op): the double loop collecting op(x, y) for every
x in a and y in b. -/
def Sign.binary_op (a b : Finset SChar) (op : SChar → SChar → Finset SChar) : Finset SChar :=
  a.biUnion fun x => b.biUnion fun y => op x y

/-- Sign of a concrete integer, matching the order of tests used by
Sign.abstract and Sign.__contains__. -/
def signOf (v : ℤ) : SChar :=
  if 0 < v then SChar.plus else if v < 0 then SChar.minus else SChar.zer

/-- Modelled binary operations of the table-based abstract semantics that the
source defines lookup tables for, with their concrete meaning on Python ints
(division is Python floor division, Int.fdiv). -/
inductive COp : Type
  | add
  | sub
  | mul
deriving DecidableEq, Repr

/-- Concrete denotation of a modelled binary operation. -/
def COp.den : COp → ℤ → ℤ → ℤ
  | COp.add, x, y => x + y
  | COp.sub, x, y => x - y
  | COp.mul, x, y => x * y

/-- The sign lookup table corresponding to a modelled binary operation. -/
def COp.table : COp → SChar → SChar → Finset SChar
  | COp.add => Sign.sign_add
  | COp.sub => Sign.sign_sub
  | COp.mul => Sign.sign_mul

theorem Sign.containsInt_iff (s : Finset SChar) (v : ℤ) :
    Sign.containsInt s v = true ↔ signOf v ∈ s := by
  unfold Sign.containsInt signOf
  split_ifs <;> simp

theorem signOf_mem_abstract {X : Finset ℤ} {x : ℤ} (hx : x ∈ X) :
    signOf x ∈ Sign.abstract X := by
  unfold Sign.abstract
  rcases lt_trichotomy x 0 with h | h | h
  · have hs : signOf x = SChar.minus := by unfold signOf; rw [if_neg (by omega), if_pos h]
    rw [hs]
    exact Finset.mem_union_left _ (Finset.mem_union_right _
      (Finset.mem_image_of_mem _ (Finset.mem_filter.mpr ⟨hx, h⟩)))
  · have hs : signOf x = SChar.zer := by unfold signOf; rw [if_neg (by omega), if_neg (by omega)]
    rw [hs]
    exact Finset.mem_union_right _ (Finset.mem_image_of_mem _ (Finset.mem_filter.mpr ⟨hx, h⟩))
  · have hs : signOf x = SChar.plus := by unfold signOf; rw [if_pos h]
    rw [hs]
    exact Finset.mem_union_left _ (Finset.mem_union_left _
      (Finset.mem_image_of_mem _ (Finset.mem_filter.mpr ⟨hx, h⟩)))

theorem mem_three_signs (c : SChar) :
    c ∈ ({SChar.plus, SChar.minus, SChar.zer} : Finset SChar) := by cases c <;> decide

theorem signOf_pos {v : ℤ} (h : 0 < v) : signOf v = SChar.plus := by
  unfold signOf; rw [if_pos h]

theorem signOf_neg {v : ℤ} (h : v < 0) : signOf v = SChar.minus := by
  unfold signOf; rw [if_neg (by omega), if_pos h]

theorem signOf_zero : signOf 0 = SChar.zer := by decide

theorem sign_add_sound (x y : ℤ) :
    signOf (x + y) ∈ Sign.sign_add (signOf x) (signOf y) := by
  rcases lt_trichotomy x 0 with hx | hx | hx <;> rcases lt_trichotomy y 0 with hy | hy | hy
  · rw [signOf_neg hx, signOf_neg hy, signOf_neg (show x + y < 0 by omega)]; decide
  · subst hy; rw [add_zero, signOf_neg hx, signOf_zero]; decide
  · rw [signOf_neg hx, signOf_pos hy,
      show Sign.sign_add SChar.minus SChar.plus = {SChar.plus, SChar.minus, SChar.zer} from by decide]
    exact mem_three_signs _
  · subst hx; rw [zero_add, signOf_zero, signOf_neg hy]; decide
  · subst hx; subst hy; decide
  · subst hx; rw [zero_add, signOf_zero, signOf_pos hy]; decide
  · rw [signOf_pos hx, signOf_neg hy,
      show Sign.sign_add SChar.plus SChar.minus = {SChar.plus, SChar.minus, SChar.zer} from by decide]
    exact mem_three_signs _
  · subst hy; rw [add_zero, signOf_pos hx, signOf_zero]; decide
  · rw [signOf_pos hx, signOf_pos hy, signOf_pos (show 0 < x + y by omega)]; decide

theorem sign_sub_sound (x y : ℤ) :
    signOf (x - y) ∈ Sign.sign_sub (signOf x) (signOf y) := by
  rcases lt_trichotomy x 0 with hx | hx | hx <;> rcases lt_trichotomy y 0 with hy | hy | hy
  · rw [signOf_neg hx, signOf_neg hy,
      show Sign.sign_sub SChar.minus SChar.minus = {SChar.plus, SChar.minus, SChar.zer} from by decide]
    exact mem_three_signs _
  · subst hy; rw [sub_zero, signOf_neg hx, signOf_zero]; decide
  · rw [signOf_neg hx, signOf_pos hy, signOf_neg (show x - y < 0 by omega)]; decide
  · subst hx; rw [zero_sub, signOf_zero, signOf_neg hy, signOf_pos (show 0 < -y by omega)]; decide
  · subst hx; subst hy; decide
  · subst hx; rw [zero_sub, signOf_zero, signOf_pos hy, signOf_neg (show -y < 0 by omega)]; decide
  · rw [signOf_pos hx, signOf_neg hy, signOf_pos (show 0 < x - y by omega)]; decide
  · subst hy; rw [sub_zero, signOf_pos hx, signOf_zero]; decide
  · rw [signOf_pos hx, signOf_pos hy,
      show Sign.sign_sub SChar.plus SChar.plus = {SChar.plus, SChar.minus, SChar.zer} from by decide]
    exact mem_three_signs _

theorem sign_mul_sound (x y : ℤ) :
    signOf (x * y) ∈ Sign.sign_mul (signOf x) (signOf y) := by
  rcases lt_trichotomy x 0 with hx | hx | hx <;> rcases lt_trichotomy y 0 with hy | hy | hy
  · rw [signOf_neg hx, signOf_neg hy, signOf_pos (mul_pos_of_neg_of_neg hx hy)]; decide
  · subst hy; rw [signOf_neg hx, signOf_zero, mul_zero, signOf_zero]; decide
  · rw [signOf_neg hx, signOf_pos hy, signOf_neg (mul_neg_of_neg_of_pos hx hy)]; decide
  · subst hx; rw [signOf_zero, signOf_neg hy, zero_mul, signOf_zero]; decide
  · subst hx; subst hy; decide
  · subst hx; rw [signOf_zero, signOf_pos hy, zero_mul, signOf_zero]; decide
  · rw [signOf_pos hx, signOf_neg hy, signOf_neg (mul_neg_of_pos_of_neg hx hy)]; decide
  · subst hy; rw [signOf_pos hx, signOf_zero, mul_zero, signOf_zero]; decide
  · rw [signOf_pos hx, signOf_pos hy, signOf_pos (mul_pos hx hy)]; decide

theorem cop_table_sound (op : COp) (x y : ℤ) :
    signOf (op.den x y) ∈ op.table (signOf x) (signOf y) := by
  cases op
  · exact sign_add_sound x y
  · exact sign_sub_sound x y
  · exact sign_mul_sound x y

/-- C1 (amended): for addition, subtraction and multiplication, the Sign
domain's table-based abstract binary operation is sound: for all finite sets
X, Y of integers and all x in X, y in Y, the concrete result x op y is
contained in Sign.binary_op(Sign.abstract X, Sign.abstract Y, table).
Division is excluded: its table is unsound for Python floor division and its
division-by-zero case yields Sign.top() instead of any error label. -/
theorem C1_sign_binary_op_sound (op : COp) (X Y : Finset ℤ) (x y : ℤ)
    (hx : x ∈ X) (hy : y ∈ Y) :
    Sign.containsInt (Sign.binary_op (Sign.abstract X) (Sign.abstract Y) op.table)
      (op.den x y) = true := by
  rw [Sign.containsInt_iff]
  unfold Sign.binary_op
  rw [Finset.mem_biUnion]
  exact ⟨signOf x, signOf_mem_abstract hx,
    Finset.mem_biUnion.mpr ⟨signOf y, signOf_mem_abstract hy, cop_table_sound op x y⟩⟩

/-- C1 witness: soundness of abstract addition at X = {5}, Y = {3}, x = 5,
y = 3, with the hypotheses discharged concretely. -/
theorem C1_sign_binary_op_sound_witness :
    Sign.containsInt (Sign.binary_op (Sign.abstract {5}) (Sign.abstract {3}) COp.add.table)
      (COp.add.den 5 3) = true :=
  C1_sign_binary_op_sound COp.add {5} {3} 5 3 (by decide) (by decide)

/-- C1 counterexample: the claim as stated fails for division. With X = {1}
and Y = {3}, the concrete result 1 // 3 = 0 (Python floor division,
Int.fdiv) is not contained in Sign.binary_op(abstract {1}, abstract {3},
sign_div) = {+}. -/
theorem C1_sign_div_unsound :
    Sign.containsInt (Sign.binary_op (Sign.abstract {1}) (Sign.abstract {3}) Sign.sign_div)
      (Int.fdiv 1 3) = false := by decide

/-! ## Abstract interpreter (src/static_analysis/abstract_interpreter.py)

AState (heap of Sign values plus a stack of per-variable frames) and the
branch handling of the abstract step function. Python dicts are association
lists; Python list stacks keep the top at the end. -/

/-- Program counter: a method identifier and an offset into its opcode
list. -/
structure APC where
  method : String
  offset : Nat
deriving DecidableEq

/-- PerVarFrame: per-variable locals, an operand stack of Sign values and a
program counter. -/
structure PerVarFrame where
  locals : List (Nat × Finset SChar)
  stack : List (Finset SChar)
  pc : APC
deriving DecidableEq

/-- AState: an abstract heap and a stack of frames. -/
structure AState where
  heap : List (Nat × Finset SChar)
  frames : List PerVarFrame
deriving DecidableEq

/-- Lookup in an association-list model of a Python dict. -/
def alistLookup {α : Type} (m : List (Nat × α)) (k : Nat) : Option α :=
  (m.find? fun p => p.1 == k).map fun p => p.2

/-- Key assignment in an association-list model of a Python dict. -/
def alistInsert {α : Type} (m : List (Nat × α)) (k : Nat) (v : α) : List (Nat × α) :=
  if m.any fun p => p.1 == k then m.map fun p => if p.1 == k then (k, v) else p
  else m ++ [(k, v)]

/-- Join of two optional Sign values as done key-wise in PerVarFrame.join and
AState.join: a missing side is replaced by the present one. The none/none
case cannot arise for keys drawn from the union of the two key sets. -/
def Sign.joinOpt : Option (Finset SChar) → Option (Finset SChar) → Finset SChar
  | none, some v2 => v2
  | some v1, none => v1
  | some v1, some v2 => v1 ∪ v2
  | none, none => ∅

/-- Key-wise join of two Sign dictionaries over the union of their keys. -/
def alistJoinSign (m1 m2 : List (Nat × Finset SChar)) : List (Nat × Finset SChar) :=
  ((m1.map Prod.fst ++ m2.map Prod.fst).dedup).map fun k =>
    (k, Sign.joinOpt (alistLookup m1 k) (alistLookup m2 k))

/-- Indexed stack read padded with Sign.bottom(), as in PerVarFrame.join. -/
def stackPadGet (l : List (Finset SChar)) (i : Nat) : Finset SChar :=
  (l.get? i).getD Sign.bottom

/-- Position-wise join of two operand stacks padded to the longer length. -/
def stackJoin (s1 s2 : List (Finset SChar)) : List (Finset SChar) :=
  (List.range (max s1.length s2.length)).map fun i => stackPadGet s1 i ∪ stackPadGet s2 i

/-- PerVarFrame.join: key-wise locals join, padded stack join and the maximum
of the two offsets on the left frame's method. -/
def PerVarFrame.join (f1 f2 : PerVarFrame) : PerVarFrame :=
  { locals := alistJoinSign f1.locals f2.locals
    stack := stackJoin f1.stack f2.stack
    pc := ⟨f1.pc.method, max f1.pc.offset f2.pc.offset⟩ }

/-- AState.join: key-wise heap join and position-wise frame join. When the
frame stacks have different lengths the source pads the shorter one with
Sign.bottom() and then calls join across a PerVarFrame and a Sign, which
raises AttributeError; that path is modelled as the error case. -/
def AState.join (s1 s2 : AState) : Except PyErr AState :=
  if s1.frames.length = s2.frames.length then
    Except.ok
      { heap := alistJoinSign s1.heap s2.heap
        frames := List.zipWith PerVarFrame.join s1.frames s2.frames }
  else
    Except.error (PyErr.attributeError "join of a PerVarFrame with the Sign bottom pad")

/-- Successor processing of the worklist loop (abstract_interpreter.py lines
289-304) for a non-terminal AState successor: a fresh offset is stored and
enqueued; for an already-stored offset the code computes
old_state.join(succ) and then calls new_joined_state.is_le(old_state) -
but the AState class defines no is_le method (it defines only a __le__
which itself calls the undefined _le_), so the attribute access raises
AttributeError. -/
def processAStateSucc (amap : List (Nat × AState)) (wl : List Nat) (succ : AState) :
    Except PyErr (List (Nat × AState) × List Nat) :=
  match succ.frames.getLast? with
  | none => Except.error (PyErr.indexError "peek from an empty frame stack")
  | some fr =>
    match alistLookup amap fr.pc.offset with
    | none => Except.ok (alistInsert amap fr.pc.offset succ, wl ++ [fr.pc.offset])
    | some old =>
      match AState.join old succ with
      | Except.error e => Except.error e
      | Except.ok _joined =>
          Except.error (PyErr.attributeError "AState object has no attribute is_le")

/-- Branch conditions of the Ifz and If opcodes. -/
inductive ICond : Type
  | eq
  | ne
  | gt
  | ge
  | lt
  | le
deriving DecidableEq, Repr

/-- Concrete meaning of an Ifz condition on the integer compared with 0,
matching the concrete interpreter's Ifz case. -/
def icondHolds : ICond → ℤ → Prop
  | ICond.eq, v => v = 0
  | ICond.ne, v => v ≠ 0
  | ICond.gt, v => 0 < v
  | ICond.ge, v => 0 ≤ v
  | ICond.lt, v => v < 0
  | ICond.le, v => v ≤ 0

/-- jump_possible flag computed by the abstract Ifz case per condition
(abstract_interpreter.py lines 134-158). -/
def ifzJumpPossible (c : ICond) (vals : Finset SChar) : Bool :=
  match c with
  | ICond.ne => !(decide (SChar.zer ∈ vals) && decide (vals.card = 1))
  | ICond.eq => decide (SChar.zer ∈ vals)
  | ICond.gt => decide (SChar.plus ∈ vals)
  | ICond.ge => decide (SChar.plus ∈ vals) || decide (SChar.zer ∈ vals)
  | ICond.lt => decide (SChar.minus ∈ vals)
  | ICond.le => decide (SChar.minus ∈ vals) || decide (SChar.zer ∈ vals)

/-- nojump_possible flag computed by the abstract Ifz case per condition. -/
def ifzNojumpPossible (c : ICond) (vals : Finset SChar) : Bool :=
  match c with
  | ICond.ne => decide (SChar.zer ∈ vals)
  | ICond.eq => decide (∃ v ∈ vals, v ≠ SChar.zer)
  | ICond.gt => decide (SChar.minus ∈ vals) || decide (SChar.zer ∈ vals)
  | ICond.ge => decide (SChar.minus ∈ vals)
  | ICond.lt => decide (SChar.plus ∈ vals) || decide (SChar.zer ∈ vals)
  | ICond.le => decide (SChar.plus ∈ vals)

/-- Abstract step for Ifz: pop the Sign value from the top frame, compute the
two possibility flags, and emit the jump successor (offset set to the
target) and/or the fall-through successor (offset incremented). -/
def stepIfz (state : AState) (c : ICond) (t : Nat) : Except PyErr (List AState) :=
  match state.frames.getLast? with
  | none => Except.error (PyErr.indexError "peek from an empty frame stack")
  | some fr =>
    match fr.stack.getLast? with
    | none => Except.error (PyErr.indexError "pop from an empty operand stack")
    | some vals =>
      let popped : PerVarFrame := { fr with stack := fr.stack.dropLast }
      let jumpFrame : PerVarFrame := { popped with pc := ⟨popped.pc.method, t⟩ }
      let fallFrame : PerVarFrame := { popped with pc := ⟨popped.pc.method, popped.pc.offset + 1⟩ }
      let base := state.frames.dropLast
      Except.ok
        ((if ifzJumpPossible c vals then [AState.mk state.heap (base ++ [jumpFrame])] else [])
          ++ (if ifzNojumpPossible c vals then [AState.mk state.heap (base ++ [fallFrame])] else []))

/-- Abstract step for If (abstract_interpreter.py lines 180-210): after the
two pops, the loop body executes an or-assignment on the local variable
jump that is never initialised, so the first iteration raises
UnboundLocalError; when either operand's sign set is empty the loops run
zero iterations, jump_possible stays False and the else branch appends the
undefined name sj, raising NameError. Either way no successor is ever
produced. -/
def stepIf (state : AState) (_c : ICond) (_t : Nat) : Except PyErr (List AState) :=
  match state.frames.getLast? with
  | none => Except.error (PyErr.indexError "peek from an empty frame stack")
  | some fr =>
    match fr.stack.getLast? with
    | none => Except.error (PyErr.indexError "pop from an empty operand stack")
    | some v2 =>
      match fr.stack.dropLast.getLast? with
      | none => Except.error (PyErr.indexError "pop from an empty operand stack")
      | some v1 =>
        if v1.Nonempty ∧ v2.Nonempty then Except.error (PyErr.unboundLocalError "jump")
        else Except.error (PyErr.nameError "sj")

theorem existsInt_pos (vals : Finset SChar) :
    (∃ v : ℤ, Sign.containsInt vals v = true ∧ 0 < v) ↔ SChar.plus ∈ vals := by
  constructor
  · rintro ⟨v, hc, hv⟩
    rw [Sign.containsInt_iff, signOf_pos hv] at hc; exact hc
  · intro h
    exact ⟨1, by rw [Sign.containsInt_iff, signOf_pos (show (0:ℤ) < 1 by omega)]; exact h, by omega⟩

theorem existsInt_neg (vals : Finset SChar) :
    (∃ v : ℤ, Sign.containsInt vals v = true ∧ v < 0) ↔ SChar.minus ∈ vals := by
  constructor
  · rintro ⟨v, hc, hv⟩
    rw [Sign.containsInt_iff, signOf_neg hv] at hc; exact hc
  · intro h
    exact ⟨-1, by rw [Sign.containsInt_iff, signOf_neg (show (-1:ℤ) < 0 by omega)]; exact h, by omega⟩

theorem existsInt_zero (vals : Finset SChar) :
    (∃ v : ℤ, Sign.containsInt vals v = true ∧ v = 0) ↔ SChar.zer ∈ vals := by
  constructor
  · rintro ⟨v, hc, hv⟩
    subst hv
    rw [Sign.containsInt_iff, signOf_zero] at hc; exact hc
  · intro h
    exact ⟨0, by rw [Sign.containsInt_iff, signOf_zero]; exact h, rfl⟩

theorem existsInt_ne (vals : Finset SChar) :
    (∃ v : ℤ, Sign.containsInt vals v = true ∧ v ≠ 0) ↔
      SChar.plus ∈ vals ∨ SChar.minus ∈ vals := by
  constructor
  · rintro ⟨v, hc, hv⟩
    rw [Sign.containsInt_iff] at hc
    rcases lt_trichotomy v 0 with h | h | h
    · right; rwa [signOf_neg h] at hc
    · exact absurd h hv
    · left; rwa [signOf_pos h] at hc
  · rintro (h | h)
    · exact ((existsInt_pos vals).mpr h).imp fun v hv => ⟨hv.1, by omega⟩
    · exact ((existsInt_neg vals).mpr h).imp fun v hv => ⟨hv.1, by omega⟩

theorem existsInt_ge (vals : Finset SChar) :
    (∃ v : ℤ, Sign.containsInt vals v = true ∧ 0 ≤ v) ↔
      SChar.plus ∈ vals ∨ SChar.zer ∈ vals := by
  constructor
  · rintro ⟨v, hc, hv⟩
    rw [Sign.containsInt_iff] at hc
    rcases lt_or_eq_of_le hv with h | h
    · left; rwa [signOf_pos h] at hc
    · right; rw [← h, signOf_zero] at hc; exact hc
  · rintro (h | h)
    · exact ((existsInt_pos vals).mpr h).imp fun v hv => ⟨hv.1, by omega⟩
    · exact ((existsInt_zero vals).mpr h).imp fun v hv => ⟨hv.1, by omega⟩

theorem existsInt_le (vals : Finset SChar) :
    (∃ v : ℤ, Sign.containsInt vals v = true ∧ v ≤ 0) ↔
      SChar.minus ∈ vals ∨ SChar.zer ∈ vals := by
  constructor
  · rintro ⟨v, hc, hv⟩
    rw [Sign.containsInt_iff] at hc
    rcases lt_or_eq_of_le hv with h | h
    · left; rwa [signOf_neg h] at hc
    · right; rw [h, signOf_zero] at hc; exact hc
  · rintro (h | h)
    · exact ((existsInt_neg vals).mpr h).imp fun v hv => ⟨hv.1, by omega⟩
    · exact ((existsInt_zero vals).mpr h).imp fun v hv => ⟨hv.1, by omega⟩

theorem ifzFlags_fin (vals : Finset SChar) (hne : vals.Nonempty) :
    (ifzJumpPossible ICond.ne vals = true ↔ (SChar.plus ∈ vals ∨ SChar.minus ∈ vals)) ∧
    (ifzJumpPossible ICond.eq vals = true ↔ SChar.zer ∈ vals) ∧
    (ifzJumpPossible ICond.gt vals = true ↔ SChar.plus ∈ vals) ∧
    (ifzJumpPossible ICond.ge vals = true ↔ (SChar.plus ∈ vals ∨ SChar.zer ∈ vals)) ∧
    (ifzJumpPossible ICond.lt vals = true ↔ SChar.minus ∈ vals) ∧
    (ifzJumpPossible ICond.le vals = true ↔ (SChar.minus ∈ vals ∨ SChar.zer ∈ vals)) ∧
    (ifzNojumpPossible ICond.ne vals = true ↔ SChar.zer ∈ vals) ∧
    (ifzNojumpPossible ICond.eq vals = true ↔ (SChar.plus ∈ vals ∨ SChar.minus ∈ vals)) ∧
    (ifzNojumpPossible ICond.gt vals = true ↔ (SChar.minus ∈ vals ∨ SChar.zer ∈ vals)) ∧
    (ifzNojumpPossible ICond.ge vals = true ↔ SChar.minus ∈ vals) ∧
    (ifzNojumpPossible ICond.lt vals = true ↔ (SChar.plus ∈ vals ∨ SChar.zer ∈ vals)) ∧
    (ifzNojumpPossible ICond.le vals = true ↔ SChar.plus ∈ vals) := by
  revert hne
  revert vals
  decide

/-- Example Ifz state: one frame whose operand stack holds the Sign value
containing "+" and "0", at offset 3 of method m. -/
def exIfzState : AState := ⟨[], [⟨[], [{SChar.plus, SChar.zer}], ⟨"m", 3⟩⟩]⟩

/-- Jump successor of the example Ifz state for target 7. -/
def exIfzJump : AState := ⟨[], [⟨[], [], ⟨"m", 7⟩⟩]⟩

/-- Fall-through successor of the example Ifz state. -/
def exIfzFall : AState := ⟨[], [⟨[], [], ⟨"m", 4⟩⟩]⟩

/-- Example If state: one frame with two Sign operands, both containing
exactly "0". -/
def exIfState : AState := ⟨[], [⟨[], [{SChar.zer}, {SChar.zer}], ⟨"m", 3⟩⟩]⟩

/-- C2: the abstract Ifz branch is two-sided as the claim states (for
non-empty Sign operands the jump flag holds exactly when some admitted
concrete value satisfies the condition, the fall-through flag exactly when
some admitted value falsifies it, and eq on the Sign value containing "+"
and "0" yields both successors), but the abstract If case never produces a
successor at all: it reads the uninitialised local variable jump and
raises UnboundLocalError. -/
theorem C2_branch_two_sided :
    (∀ (c : ICond) (vals : Finset SChar), vals.Nonempty →
        ((ifzJumpPossible c vals = true ↔
            ∃ v : ℤ, Sign.containsInt vals v = true ∧ icondHolds c v) ∧
         (ifzNojumpPossible c vals = true ↔
            ∃ v : ℤ, Sign.containsInt vals v = true ∧ ¬ icondHolds c v))) ∧
    stepIfz exIfzState ICond.eq 7 = Except.ok [exIfzJump, exIfzFall] ∧
    stepIf exIfState ICond.eq 7 = Except.error (PyErr.unboundLocalError "jump") := by
  refine ⟨fun c vals hne => ?_, by rfl, by rfl⟩
  have hf := ifzFlags_fin vals hne
  cases c
  · exact ⟨(hf.2.1).trans (existsInt_zero vals).symm,
      (hf.2.2.2.2.2.2.2.1).trans (existsInt_ne vals).symm⟩
  · refine ⟨(hf.1).trans (existsInt_ne vals).symm, (hf.2.2.2.2.2.2.1).trans ?_⟩
    have h2 : (∃ v : ℤ, Sign.containsInt vals v = true ∧ ¬ icondHolds ICond.ne v) ↔
        (∃ v : ℤ, Sign.containsInt vals v = true ∧ v = 0) := by
      simp only [icondHolds, ne_eq, not_not]
    rw [h2]
    exact (existsInt_zero vals).symm
  · refine ⟨(hf.2.2.1).trans (existsInt_pos vals).symm, (hf.2.2.2.2.2.2.2.2.1).trans ?_⟩
    have h2 : (∃ v : ℤ, Sign.containsInt vals v = true ∧ ¬ icondHolds ICond.gt v) ↔
        (∃ v : ℤ, Sign.containsInt vals v = true ∧ v ≤ 0) := by
      simp only [icondHolds, not_lt]
    rw [h2]
    exact (existsInt_le vals).symm
  · refine ⟨(hf.2.2.2.1).trans (existsInt_ge vals).symm, (hf.2.2.2.2.2.2.2.2.2.1).trans ?_⟩
    have h2 : (∃ v : ℤ, Sign.containsInt vals v = true ∧ ¬ icondHolds ICond.ge v) ↔
        (∃ v : ℤ, Sign.containsInt vals v = true ∧ v < 0) := by
      simp only [icondHolds, not_le]
    rw [h2]
    exact (existsInt_neg vals).symm
  · refine ⟨(hf.2.2.2.2.1).trans (existsInt_neg vals).symm,
      (hf.2.2.2.2.2.2.2.2.2.2.1).trans ?_⟩
    have h2 : (∃ v : ℤ, Sign.containsInt vals v = true ∧ ¬ icondHolds ICond.lt v) ↔
        (∃ v : ℤ, Sign.containsInt vals v = true ∧ 0 ≤ v) := by
      simp only [icondHolds, not_lt]
    rw [h2]
    exact (existsInt_ge vals).symm
  · refine ⟨(hf.2.2.2.2.2.1).trans (existsInt_le vals).symm,
      (hf.2.2.2.2.2.2.2.2.2.2.2).trans ?_⟩
    have h2 : (∃ v : ℤ, Sign.containsInt vals v = true ∧ ¬ icondHolds ICond.le v) ↔
        (∃ v : ℤ, Sign.containsInt vals v = true ∧ 0 < v) := by
      simp only [icondHolds, not_le]
    rw [h2]
    exact (existsInt_pos vals).symm

/-- C2 witness: the two-sided characterisation instantiated at the non-empty
Sign value containing "+" and "0" with condition eq, giving both flags. -/
theorem C2_branch_two_sided_witness :
    ifzJumpPossible ICond.eq {SChar.plus, SChar.zer} = true ∧
    ifzNojumpPossible ICond.eq {SChar.plus, SChar.zer} = true :=
  ⟨((C2_branch_two_sided.1 ICond.eq {SChar.plus, SChar.zer} (by decide)).1).mpr
      ⟨0, by decide, rfl⟩,
   ((C2_branch_two_sided.1 ICond.eq {SChar.plus, SChar.zer} (by decide)).2).mpr
      ⟨1, by decide, by simp [icondHolds]⟩⟩

/-- Example worklist state for C3: a single empty frame at offset 0. -/
def exC3State : AState := ⟨[], [⟨[], [], ⟨"m", 0⟩⟩]⟩

/-- C3: when a successor's offset already has a stored state, the worklist
loop computes old.join(succ) and then calls is_le on the joined AState;
AState defines no is_le method, so the loop raises AttributeError instead
of performing the store-and-enqueue test the claim describes. Evaluated
here at a concrete already-stored offset. -/
theorem C3_worklist_is_le_crash :
    processAStateSucc [(0, exC3State)] [] exC3State =
      Except.error (PyErr.attributeError "AState object has no attribute is_le") := by
  rfl

/-! ## Final classification of the abstract interpreter
(abstract_interpreter.py lines 308-317) and the symbolic outcome scorer
(src/symbolic_execution/analysis.py, summarize). -/

/-- Classification printed after the worklist loop: it tests membership of
"divide by zero", then "assertion error", then "ok"; any other non-empty
list of terminal labels produces a generic diagnostic line, and an empty
list produces "*". (The Python set formatting of the diagnostic payload is
abstracted to an intercalated list of the distinct labels.) -/
def classifyFinal (final : List String) : String :=
  if "divide by zero" ∈ final then "divide by zero"
  else if "assertion error" ∈ final then "assertion error"
  else if "ok" ∈ final then "ok"
  else if final ≠ [] then
    "Analysis finished, encountered terminal states: " ++ String.intercalate ", " final.dedup
  else "*"

/-- Modelled from the spec for the refinement comparison: the
highest-priority label present under the order divide by zero, assertion
error, out of bounds, null pointer, ok, with "*" for an empty list. -/
def specPriorityOutcome (final : List String) : String :=
  if "divide by zero" ∈ final then "divide by zero"
  else if "assertion error" ∈ final then "assertion error"
  else if "out of bounds" ∈ final then "out of bounds"
  else if "null pointer" ∈ final then "null pointer"
  else if "ok" ∈ final then "ok"
  else "*"

/-- C4 (amended): restricted to the terminal labels the abstract step
function actually emits (divide by zero, assertion error, ok), the final
classification reports the highest-priority label present, and "*" for an
empty list; the full six-label priority of the claim fails because the
code has no cases for out of bounds or null pointer. -/
theorem C4_classification_priority (final : List String)
    (h : ∀ l ∈ final, l = "divide by zero" ∨ l = "assertion error" ∨ l = "ok") :
    classifyFinal final = specPriorityOutcome final := by
  unfold classifyFinal specPriorityOutcome
  by_cases h1 : "divide by zero" ∈ final
  · rw [if_pos h1, if_pos h1]
  · rw [if_neg h1, if_neg h1]
    by_cases h2 : "assertion error" ∈ final
    · rw [if_pos h2, if_pos h2]
    · rw [if_neg h2, if_neg h2]
      have h3 : "out of bounds" ∉ final := fun hm => by
        rcases h _ hm with h' | h' | h' <;> simp at h'
      have h4 : "null pointer" ∉ final := fun hm => by
        rcases h _ hm with h' | h' | h' <;> simp at h'
      rw [if_neg h3, if_neg h4]
      by_cases h5 : "ok" ∈ final
      · rw [if_pos h5, if_pos h5]
      · rw [if_neg h5, if_neg h5]
        have h6 : final = [] := by
          cases final with
          | nil => rfl
          | cons a t =>
            rcases h a (by simp) with h' | h' | h'
            · subst h'; exact absurd (List.mem_cons_self _ _) h1
            · subst h'; exact absurd (List.mem_cons_self _ _) h2
            · subst h'; exact absurd (List.mem_cons_self _ _) h5
        subst h6
        rfl

/-- C4 witness: the amended classification at the list containing ok and
divide by zero, where both sides report divide by zero. -/
theorem C4_classification_priority_witness :
    classifyFinal ["ok", "divide by zero"] = specPriorityOutcome ["ok", "divide by zero"] :=
  C4_classification_priority ["ok", "divide by zero"] (by intro l hl; fin_cases hl <;> simp)

/-- C4 counterexample: for the collected terminal multiset containing exactly
"out of bounds" the code prints the generic diagnostic line, not the
highest-priority label "out of bounds" demanded by the claim. -/
theorem C4_classification_counterexample :
    classifyFinal ["out of bounds"] ≠ specPriorityOutcome ["out of bounds"] := by
  decide

/-- Kinds recognised by summarize; any other non-None kind is replaced by
"*". -/
def knownKinds : List String :=
  ["ok", "assertion error", "divide by zero", "out of bounds", "null pointer"]

/-- Kind normalisation performed while counting in summarize. -/
def normalizeKind (k : String) : String := if k ∈ knownKinds then k else "*"

/-- Order of the six output lines printed by summarize. -/
def summarizeOrder : List String :=
  ["assertion error", "ok", "*", "divide by zero", "out of bounds", "null pointer"]

/-- Score of one label: 100 when the counter of normalised kinds is positive
for it, else 0. Finding kinds that are None are skipped before counting. -/
def summarizeScore (kinds : List (Option String)) (label : String) : Nat :=
  if 0 < ((kinds.filterMap id).map normalizeKind).count label then 100 else 0

/-- summarize(findings): the six (label, percentage) lines in print order. -/
def summarize (kinds : List (Option String)) : List (String × Nat) :=
  summarizeOrder.map fun l => (l, summarizeScore kinds l)

theorem normalizeKind_of_catalog {k : String} (hk : k ∈ summarizeOrder) :
    normalizeKind k = k := by
  fin_cases hk <;> decide

/-- C5: for every list of finding kinds drawn from the outcome catalog (the
only kinds the executor ever attaches to a Finding), summarize emits
exactly the six labels in the order assertion error, ok, *, divide by
zero, out of bounds, null pointer, scoring a label 100 exactly when some
finding has that kind and 0 otherwise. -/
theorem C5_summarize_binary_scores (kinds : List (Option String))
    (h : ∀ k : String, some k ∈ kinds → k ∈ summarizeOrder) :
    summarize kinds = summarizeOrder.map fun l => (l, if some l ∈ kinds then 100 else 0) := by
  unfold summarize
  apply List.map_congr_left
  intro l hl
  have key : (0 < ((kinds.filterMap id).map normalizeKind).count l) ↔ some l ∈ kinds := by
    rw [List.count_pos_iff]
    constructor
    · intro hmem
      rcases List.mem_map.mp hmem with ⟨k, hk1, hk2⟩
      rcases List.mem_filterMap.mp hk1 with ⟨a, ha1, ha2⟩
      have ha : a = some k := ha2
      subst ha
      rw [normalizeKind_of_catalog (h k ha1)] at hk2
      subst hk2
      exact ha1
    · intro hmem
      exact List.mem_map.mpr
        ⟨l, List.mem_filterMap.mpr ⟨some l, hmem, rfl⟩, normalizeKind_of_catalog hl⟩
  unfold summarizeScore
  by_cases hc : some l ∈ kinds
  · rw [if_pos (key.mpr hc), if_pos hc]
  · rw [if_neg fun hx => hc (key.mp hx), if_neg hc]

/-- C5 witness: summarize on the kind list containing divide by zero and ok
produces the six ordered lines with binary scores. -/
theorem C5_summarize_binary_scores_witness :
    summarize [some "divide by zero", some "ok"] =
      [("assertion error", 0), ("ok", 100), ("*", 0),
       ("divide by zero", 100), ("out of bounds", 0), ("null pointer", 0)] := by
  rw [C5_summarize_binary_scores [some "divide by zero", some "ok"]
    (by intro k hk; simp only [List.mem_cons, List.not_mem_nil, or_false,
          Option.some.injEq] at hk
        rcases hk with h | h <;> subst h <;> decide)]
  decide

/-! ## Symbolic execution engine
(src/symbolic_execution/{symexpr,path,symstate,findings,executor,jvm_frontend}.py) -/

/-- Symbolic expressions: SymInt, BinaryOp, SymArrayRef, SymArrayElem,
SymBool, and the ("not", e) tuple produced by constraints.negate. -/
inductive SymExpr : Type
  | symInt (name : Option String) (concrete : Option ℤ)
  | binaryOp (op : String) (lhs rhs : SymExpr)
  | symArrayRef (name : String)
  | symArrayElem (array : String) (index : SymExpr)
  | symBool (expr : SymExpr) (concrete : Option Bool)
  | notTuple (e : SymExpr)
deriving DecidableEq

/-- PathConstraint: the ordered list of boolean constraints. The Python class
defines add, extend and copy; it defines no depth method. -/
structure PathConstraint where
  constraints : List SymExpr
deriving DecidableEq

/-- PathConstraint.add: append one constraint. -/
def PathConstraint.add (p : PathConstraint) (c : SymExpr) : PathConstraint :=
  ⟨p.constraints ++ [c]⟩

/-- PathConstraint.copy: a fresh list with the same constraints. -/
def PathConstraint.copy (p : PathConstraint) : PathConstraint :=
  ⟨p.constraints⟩

/-- Local-variable keys of a SymbolicState: integer slots and the synthetic
string keys used for array summaries. -/
inductive LKey : Type
  | idx (i : Nat)
  | sname (s : String)
deriving DecidableEq

/-- Local-variable values: a symbolic expression or an array summary holding
a symbolic length and an element type name. -/
inductive LVal : Type
  | expr (e : SymExpr)
  | arraySummary (length : SymExpr) (elemType : String)
deriving DecidableEq

/-- Key assignment for the locals dictionary of a SymbolicState. -/
def localsInsert (m : List (LKey × LVal)) (k : LKey) (v : LVal) : List (LKey × LVal) :=
  if m.any fun p => p.1 == k then m.map fun p => if p.1 == k then (k, v) else p
  else m ++ [(k, v)]

/-- SymbolicState. The executor never consults the method component of the
program counter, so pc is modelled as the offset alone. -/
structure SymState where
  pc : Nat
  stack : List SymExpr
  locals : List (LKey × LVal)
  path_constraint : PathConstraint
  depth : Nat
  terminated : Bool
  error : Option String
  return_value : Option SymExpr
  steps : Nat
deriving DecidableEq

/-- Finding.from_state: kind is the state's error, with a copy of the path
constraint and the return value. -/
structure Finding where
  kind : Option String
  pc : Nat
  path_constraint : PathConstraint
  return_value : Option SymExpr
deriving DecidableEq

/-- Conversion of a terminated state into a Finding. -/
def Finding.fromState (s : SymState) : Finding :=
  ⟨s.error, s.pc, s.path_constraint.copy, s.return_value⟩

/-- SEConfig defaults from src/symbolic_execution/config.py. The
timeout_seconds field is wall-clock time and is never consulted by
SymbolicExecutor.run, so it is not modelled. -/
structure SEConfig where
  max_steps : Option Nat := some 1000
  max_depth : Option Nat := some 300
  max_states : Nat := 1000
  use_solver : Bool := true
  debug : Bool := false
deriving DecidableEq

/-- MAX_STEPS_PER_STATE from config.py. -/
def MAX_STEPS_PER_STATE : Nat := 100

/-- Worklist loop of SymbolicExecutor.run under the DFS strategy (next pops
the last element, add appends), parameterised over the frontend step
function and the solver's satisfiability test. Order of checks per popped
state, as in the source: terminated states are pruned on unsat or recorded
as a Finding labelled error-or-ok; then the per-state step bound drops the
state; then the global bound clears the worklist and breaks; then the loop
increments the global counter and evaluates
state.path_constraint.depth() for the depth bound - PathConstraint defines
no depth method, so with max_depth set this attribute access raises
AttributeError; then unsat states are pruned; then successors are pushed
with steps set to state.steps + 1 (the bump the frontend wrapper applies to
the popped state itself belongs to the frontend model). An empty successor
list is recorded as an implicit error-or-ok Finding. The fuel argument
models the unbounded while loop. -/
def runLoop (fstep : SymState → List SymState) (cfg : SEConfig)
    (sat : PathConstraint → Bool) :
    Nat → List SymState → List Finding → Nat → Except PyErr (List Finding)
  | 0, _, _, _ => Except.error PyErr.fuel
  | fuel + 1, worklist, findings, steps =>
    match worklist.getLast? with
    | none => Except.ok findings
    | some state =>
      let rest := worklist.dropLast
      if state.terminated then
        if cfg.use_solver && !(sat state.path_constraint) then
          runLoop fstep cfg sat fuel rest findings steps
        else
          runLoop fstep cfg sat fuel rest
            (findings ++ [Finding.fromState { state with error := some (state.error.getD "ok") }])
            steps
      else if MAX_STEPS_PER_STATE ≤ state.steps then
        runLoop fstep cfg sat fuel rest findings steps
      else if (match cfg.max_steps with | some m => decide (m ≤ steps) | none => false) then
        Except.ok findings
      else
        let steps' := steps + 1
        if cfg.max_depth.isSome then
          Except.error (PyErr.attributeError "PathConstraint object has no attribute depth")
        else if cfg.use_solver && !(sat state.path_constraint) then
          runLoop fstep cfg sat fuel rest findings steps'
        else
          let successors := fstep state
          if successors.isEmpty then
            runLoop fstep cfg sat fuel rest
              (findings ++ [Finding.fromState { state with error := some (state.error.getD "ok") }])
              steps'
          else
            runLoop fstep cfg sat fuel
              (rest ++ successors.map fun succ => { succ with steps := state.steps + 1 })
              findings steps'

/-- SymbolicExecutor.run: the worklist loop followed by the synthetic "*"
post-processing on an empty finding list. -/
def runExec (fstep : SymState → List SymState) (cfg : SEConfig)
    (sat : PathConstraint → Bool) (fuel : Nat) (initial : SymState) :
    Except PyErr (List Finding) :=
  match runLoop fstep cfg sat fuel [initial] [] 0 with
  | Except.error e => Except.error e
  | Except.ok findings =>
    if findings.isEmpty then
      Except.ok [Finding.fromState { initial with terminated := true, error := some "*" }]
    else
      Except.ok findings

/-- Step case for jvm.Dup (jvm_frontend.py lines 397-409): an empty operand
stack yields one successor terminated with error None; otherwise the top
expression is duplicated and the pc advanced. -/
def stepDup (s : SymState) : List SymState :=
  match s.stack.getLast? with
  | none => [{ s with terminated := true, error := none }]
  | some v => [{ s with stack := s.stack ++ [v], pc := s.pc + 1 }]

/-- Step case for jvm.Store (jvm_frontend.py lines 738-750): an empty operand
stack yields one successor terminated with error None; otherwise the top
expression is popped into the local slot and the pc advanced. -/
def stepStore (s : SymState) (i : Nat) : List SymState :=
  match s.stack.getLast? with
  | none => [{ s with terminated := true, error := none }]
  | some val =>
    [{ s with stack := s.stack.dropLast,
              locals := localsInsert s.locals (LKey.idx i) (LVal.expr val),
              pc := s.pc + 1 }]

/-- Example non-terminated symbolic state with an empty stack and an empty
path constraint. -/
def exSymState : SymState := ⟨0, [], [], ⟨[]⟩, 0, false, none, none, 0⟩

/-- Example terminated symbolic state with error None. -/
def exTermState : SymState := ⟨0, [], [], ⟨[]⟩, 0, true, none, none, 0⟩

/-- C6: under the default SEConfig (max_depth = 300) the executor's
depth-bound check evaluates state.path_constraint.depth() on a
non-terminated state; PathConstraint defines no depth method, so the loop
raises AttributeError instead of silently dropping over-depth states as
the claim describes. Evaluated at a fresh non-terminated state. -/
theorem C6_depth_check_crash :
    runLoop (fun s => [s]) ({} : SEConfig) (fun _ => true) 3 [exSymState] [] 0 =
      Except.error (PyErr.attributeError "PathConstraint object has no attribute depth") := by
  rfl

/-- C9: whenever SymbolicExecutor.run finishes with zero findings collected
by the loop, it returns exactly one Finding built from a terminated copy
of the initial state with kind "*"; and any finding list run returns is
non-empty. -/
theorem C9_run_synthesizes_star (fstep : SymState → List SymState) (cfg : SEConfig)
    (sat : PathConstraint → Bool) (fuel : Nat) (s0 : SymState) :
    (runLoop fstep cfg sat fuel [s0] [] 0 = Except.ok [] →
      runExec fstep cfg sat fuel s0 =
        Except.ok [Finding.fromState { s0 with terminated := true, error := some "*" }] ∧
      (Finding.fromState { s0 with terminated := true, error := some "*" }).kind = some "*") ∧
    (∀ fs, runExec fstep cfg sat fuel s0 = Except.ok fs → fs ≠ []) := by
  constructor
  · intro h
    refine ⟨?_, rfl⟩
    unfold runExec
    rw [h]
    rfl
  · intro fs hfs
    unfold runExec at hfs
    split at hfs
    · exact Except.noConfusion hfs
    · split at hfs
      · injection hfs with h2
        subst h2
        simp
      · rename_i hne
        injection hfs with h2
        subst h2
        intro hnil
        exact hne (by simp [hnil])

/-- C9 witness: a terminated initial state whose path the solver reports
unsatisfiable is pruned, the loop ends with zero findings, and run returns
exactly the synthetic "*" finding. -/
theorem C9_run_synthesizes_star_witness :
    runExec (fun s => [s]) ({} : SEConfig) (fun _ => false) 2 exTermState =
      Except.ok [Finding.fromState { exTermState with terminated := true, error := some "*" }] :=
  ((C9_run_synthesizes_star (fun s => [s]) ({} : SEConfig) (fun _ => false) 2 exTermState).1
    (by rfl)).1

/-- C10: the symbolic Dup and Store cases on an empty operand stack return a
single successor terminated with error None (no exception), and one
executor iteration on a popped terminated state with error None and a
satisfiable path records it as a Finding of kind "ok". -/
theorem C10_dup_store_empty_stack :
    (∀ s : SymState, s.stack = [] →
        stepDup s = [{ s with terminated := true, error := none }]) ∧
    (∀ (s : SymState) (i : Nat), s.stack = [] →
        stepStore s i = [{ s with terminated := true, error := none }]) ∧
    (∀ (fstep : SymState → List SymState) (cfg : SEConfig) (sat : PathConstraint → Bool)
        (fuel : Nat) (wl : List SymState) (findings : List Finding) (steps : Nat)
        (t : SymState),
        t.terminated = true → t.error = none → sat t.path_constraint = true →
        runLoop fstep cfg sat (fuel + 1) (wl ++ [t]) findings steps =
          runLoop fstep cfg sat fuel wl
            (findings ++ [Finding.fromState { t with error := some "ok" }]) steps) := by
  refine ⟨?_, ?_, ?_⟩
  · intro s h
    unfold stepDup
    rw [h]
    rfl
  · intro s i h
    unfold stepStore
    rw [h]
    rfl
  · intro fstep cfg sat fuel wl findings steps t ht herr hsat
    simp [runLoop, List.getLast?_concat, List.dropLast_concat, ht, hsat, herr]

/-- C10 witness: the Dup case at the concrete empty-stack state and one
executor iteration at the concrete terminated state, recording an "ok"
finding. -/
theorem C10_dup_store_empty_stack_witness :
    stepDup exSymState = [{ exSymState with terminated := true, error := none }] ∧
    runLoop (fun s => [s]) ({} : SEConfig) (fun _ => true) 1 [exTermState] [] 0 =
      runLoop (fun s => [s]) ({} : SEConfig) (fun _ => true) 0 []
        [Finding.fromState { exTermState with error := some "ok" }] 0 :=
  ⟨C10_dup_store_empty_stack.1 exSymState rfl,
   C10_dup_store_empty_stack.2.2 (fun s => [s]) ({} : SEConfig) (fun _ => true) 0 [] [] 0
     exTermState rfl rfl rfl⟩

/-! ## Solver translation (src/symbolic_execution/solver_z3.py, _z3_int) -/

/-- Z3 terms produced by the integer translation: a constant or a free
integer variable. -/
inductive Z3Expr : Type
  | intVal (c : ℤ)
  | intVar (name : String)
deriving DecidableEq

/-- SymInt as consumed by the solver translation: an optional name and an
optional concrete value. -/
structure SymIntV where
  name : Option String := none
  concrete : Option ℤ := none
deriving DecidableEq

/-- Solver._z3_int: the concrete value is checked first and wins; only a
SymInt without a concrete value is translated by name; with neither set a
fresh variable named from the object id (passed in here) is produced. -/
def z3Int (fresh : String) (v : SymIntV) : Z3Expr :=
  match v.concrete with
  | some c => Z3Expr.intVal c
  | none =>
    match v.name with
    | some n => Z3Expr.intVar n
    | none => Z3Expr.intVar fresh

/-- C7 (amended): the translation maps every SymInt with a concrete value c
to the integer constant c regardless of its name; a SymInt is mapped to
the free integer variable named n exactly in the remaining case, when its
concrete value is unset and its name is n. -/
theorem C7_z3int_translation (fresh : String) (v : SymIntV) :
    (∀ c, v.concrete = some c → z3Int fresh v = Z3Expr.intVal c) ∧
    (v.concrete = none → ∀ n, v.name = some n → z3Int fresh v = Z3Expr.intVar n) := by
  constructor
  · intro c hc
    unfold z3Int
    rw [hc]
  · intro hc n hn
    unfold z3Int
    rw [hc, hn]

/-- C7 witness: translation of the nameless concrete 7 and of the named
symbolic arg0, with the hypotheses discharged concretely. -/
theorem C7_z3int_translation_witness :
    z3Int "x_1" ⟨none, some 7⟩ = Z3Expr.intVal 7 ∧
    z3Int "x_2" ⟨some "arg0", none⟩ = Z3Expr.intVar "arg0" :=
  ⟨(C7_z3int_translation "x_1" ⟨none, some 7⟩).1 7 rfl,
   (C7_z3int_translation "x_2" ⟨some "arg0", none⟩).2 rfl "arg0" rfl⟩

/-- C7 counterexample: jvm_frontend's New case pushes a SymInt with both a
reference name and the concrete value 1; the translator maps it to the
constant 1, not to a free variable of that name as the claim demands. -/
theorem C7_named_concrete_counterexample :
    z3Int "x_3" ⟨some "java_lang_AssertionError_ref_0", some 1⟩ = Z3Expr.intVal 1 ∧
    Z3Expr.intVal 1 ≠ Z3Expr.intVar "java_lang_AssertionError_ref_0" :=
  ⟨rfl, by decide⟩

/-! ## Concrete interpreter (src/interpreter/interpreter.py)

The fragment needed for the integer-arithmetic claims: Push, the integer
Binary case for Add/Sub/Mul/Div/Rem, and Return of an int. The bit
operations And/Or/Xor/Shl/Shr/Ushr of the same match arm are not consulted
by any claim and are omitted. Values carry Python unbounded ints; the
overflow check after Add/Sub/Mul only prints an @@FIND overflow event. -/

/-- Concrete values: an integer, or any other tagged value (whose details the
modelled opcodes never consult besides the int-type asserts). -/
inductive CValue : Type
  | vint (i : ℤ)
  | vother
deriving DecidableEq

/-- Integer binary operators modelled from the interpreter's Binary case. -/
inductive CBinOp : Type
  | add
  | sub
  | mul
  | div
  | rem
deriving DecidableEq, Repr

/-- Events printed by the interpreter: @@FIND overflow with the operand
values, and @@FIND divzero (printed only by the generic Rem branch; the
dedicated Div case that precedes the generic arm prints nothing). -/
inductive CEvent : Type
  | overflow (pcOffset : Nat) (v1 v2 : ℤ)
  | divzero (pcOffset : Nat)
deriving DecidableEq

/-- Opcode fragment. -/
inductive COpcode : Type
  | push (v : CValue)
  | binary (op : CBinOp)
  | returnInt
deriving DecidableEq

/-- Concrete frame: locals, operand stack (top at the end) and the pc offset
(all modelled frames execute the single entry method). -/
structure CFrame where
  locals : List (Nat × CValue)
  stack : List CValue
  pcOffset : Nat
deriving DecidableEq

/-- Concrete state: heap and frame stack. -/
structure CState where
  heap : List (Nat × CValue)
  frames : List CFrame
deriving DecidableEq

/-- In-place mutation of the top frame. -/
def replaceTopFrame (st : CState) (fr : CFrame) : CState :=
  ⟨st.heap, st.frames.dropLast ++ [fr]⟩

/-- Concrete denotation of the modelled integer operators on Python ints:
Add/Sub/Mul are exact, Div is floor division and Rem the Python modulo. -/
def cIntOp : CBinOp → ℤ → ℤ → ℤ
  | CBinOp.add, a, b => a + b
  | CBinOp.sub, a, b => a - b
  | CBinOp.mul, a, b => a * b
  | CBinOp.div, a, b => Int.fdiv a b
  | CBinOp.rem, a, b => Int.fmod a b

/-- Overflow test of the interpreter: the mathematical result lies outside
the interval from -2^31 to 2^31 - 1. -/
def wouldOverflow (x : ℤ) : Bool :=
  decide (x < -(2 ^ 31)) || decide (2 ^ 31 - 1 < x)

/-- Single step of the concrete interpreter on the modelled opcode fragment.
The result is the list of printed events together with either the next
state or a termination label. -/
def cstep (prog : List COpcode) (state : CState) :
    Except PyErr (List CEvent × (CState ⊕ String)) :=
  match state.frames.getLast? with
  | none => Except.error (PyErr.indexError "peek from an empty frame stack")
  | some frame =>
    match prog.get? frame.pcOffset with
    | none => Except.error (PyErr.indexError "opcode offset out of range")
    | some opr =>
      match opr with
      | COpcode.push v =>
        Except.ok ([], Sum.inl (replaceTopFrame state
          { frame with stack := frame.stack ++ [v], pcOffset := frame.pcOffset + 1 }))
      | COpcode.binary op =>
        match frame.stack.getLast? with
        | none => Except.error (PyErr.indexError "pop from an empty operand stack")
        | some w2 =>
          match frame.stack.dropLast.getLast? with
          | none => Except.error (PyErr.indexError "pop from an empty operand stack")
          | some w1 =>
            match w1, w2 with
            | CValue.vint a, CValue.vint b =>
              let rest := frame.stack.dropLast.dropLast
              match op with
              | CBinOp.add =>
                Except.ok
                  ((if wouldOverflow (a + b) then [CEvent.overflow frame.pcOffset a b] else []),
                   Sum.inl (replaceTopFrame state
                     { frame with stack := rest ++ [CValue.vint (a + b)],
                                  pcOffset := frame.pcOffset + 1 }))
              | CBinOp.sub =>
                Except.ok
                  ((if wouldOverflow (a - b) then [CEvent.overflow frame.pcOffset a b] else []),
                   Sum.inl (replaceTopFrame state
                     { frame with stack := rest ++ [CValue.vint (a - b)],
                                  pcOffset := frame.pcOffset + 1 }))
              | CBinOp.mul =>
                Except.ok
                  ((if wouldOverflow (a * b) then [CEvent.overflow frame.pcOffset a b] else []),
                   Sum.inl (replaceTopFrame state
                     { frame with stack := rest ++ [CValue.vint (a * b)],
                                  pcOffset := frame.pcOffset + 1 }))
              | CBinOp.div =>
                if b = 0 then Except.ok ([], Sum.inr "divide by zero")
                else Except.ok ([], Sum.inl (replaceTopFrame state
                  { frame with stack := rest ++ [CValue.vint (Int.fdiv a b)],
                               pcOffset := frame.pcOffset + 1 }))
              | CBinOp.rem =>
                if b = 0 then
                  Except.ok ([CEvent.divzero frame.pcOffset], Sum.inr "divide by zero")
                else Except.ok ([], Sum.inl (replaceTopFrame state
                  { frame with stack := rest ++ [CValue.vint (Int.fmod a b)],
                               pcOffset := frame.pcOffset + 1 }))
            | _, _ => Except.error PyErr.assertionFailed
      | COpcode.returnInt =>
        match frame.stack.getLast? with
        | none => Except.error (PyErr.indexError "pop from an empty operand stack")
        | some v1 =>
          match state.frames.dropLast.getLast? with
          | none => Except.ok ([], Sum.inr "ok")
          | some caller =>
            Except.ok ([], Sum.inl ⟨state.heap, state.frames.dropLast.dropLast ++
              [{ caller with stack := caller.stack ++ [v1],
                             pcOffset := caller.pcOffset + 1 }]⟩)

/-- Example program: integer Add followed by an int Return. -/
def exProg : List COpcode := [COpcode.binary CBinOp.add, COpcode.returnInt]

/-- Example initial state: one frame with 2^31 - 1 and 1 on the stack. -/
def exC8State0 : CState := ⟨[], [⟨[], [CValue.vint (2 ^ 31 - 1), CValue.vint 1], 0⟩]⟩

/-- State after the overflowing Add: the unwrapped sum 2^31 on the stack. -/
def exC8State1 : CState := ⟨[], [⟨[], [CValue.vint (2 ^ 31)], 1⟩]⟩

/-- C8: an integer Add, Sub or Mul always continues to the next instruction
with the mathematical result pushed, emitting the overflow event exactly
when the result lies outside the 32-bit range and never a termination
label; in particular adding 2^31 - 1 and 1 emits the overflow event and
the following int Return terminates with ok. -/
theorem C8_overflow_informational :
    (∀ (prog : List COpcode) (st : CState) (fr : CFrame) (rest : List CValue)
        (a b : ℤ) (op : CBinOp),
        (op = CBinOp.add ∨ op = CBinOp.sub ∨ op = CBinOp.mul) →
        st.frames.getLast? = some fr →
        fr.stack = rest ++ [CValue.vint a, CValue.vint b] →
        prog.get? fr.pcOffset = some (COpcode.binary op) →
        cstep prog st = Except.ok
          ((if wouldOverflow (cIntOp op a b) then [CEvent.overflow fr.pcOffset a b] else []),
           Sum.inl (replaceTopFrame st
             { fr with stack := rest ++ [CValue.vint (cIntOp op a b)],
                       pcOffset := fr.pcOffset + 1 }))) ∧
    cstep exProg exC8State0 =
      Except.ok ([CEvent.overflow 0 (2 ^ 31 - 1) 1], Sum.inl exC8State1) ∧
    cstep exProg exC8State1 = Except.ok ([], Sum.inr "ok") := by
  refine ⟨?_, by rfl, by rfl⟩
  intro prog st fr rest a b op hop hfr hstack hprog
  have hsplit : fr.stack = (rest ++ [CValue.vint a]) ++ [CValue.vint b] := by
    rw [hstack]; simp
  have h1 : fr.stack.getLast? = some (CValue.vint b) := by
    rw [hsplit, List.getLast?_concat]
  have h2 : fr.stack.dropLast = rest ++ [CValue.vint a] := by
    rw [hsplit, List.dropLast_concat]
  have h3 : fr.stack.dropLast.getLast? = some (CValue.vint a) := by
    rw [h2, List.getLast?_concat]
  have h4 : fr.stack.dropLast.dropLast = rest := by
    rw [h2, List.dropLast_concat]
  rcases hop with h | h | h <;> subst h <;>
    simp only [cstep, hfr, hprog, h1, h3, h4, cIntOp]

/-- C8 witness: the general Add/Sub/Mul equation applied at the concrete
overflowing addition, with all hypotheses discharged. -/
theorem C8_overflow_informational_witness :
    cstep exProg exC8State0 =
      Except.ok ([CEvent.overflow 0 (2 ^ 31 - 1) 1], Sum.inl exC8State1) := by
  have h := C8_overflow_informational.1 exProg exC8State0
    ⟨[], [CValue.vint (2 ^ 31 - 1), CValue.vint 1], 0⟩ [] (2 ^ 31 - 1) 1 CBinOp.add
    (Or.inl rfl) rfl rfl rfl
  rw [h]
  rfl
